import Mathlib

/-!
# Verification of the Python-to-Lua transpiler (`src/transpiler.py`)

This file gives a shallow embedding of the transpiler in `src/transpiler.py`
and proves properties of it.  The embedding mirrors the Python source:

* `snake_to_camel` embeds the function of the same name (Python `str.split`
  on the underscore character is embedded as `splitOnChar`, Python
  `str.capitalize` as `pyCapitalize`).
* The AST types (`Const`, `BinOpK`, `UnaryOpK`, `CmpOpK`, `Expr`, `Stmt`,
  `Arguments`, `Alias`) embed the fragment of Python's `ast` module the
  transpiler inspects.  Node kinds the transpiler has no handler for are
  represented by `Expr.unsupported` (which makes `PyToLua.expr` raise) and
  `Stmt.other` (for which `ast.NodeVisitor.visit` falls back to
  `generic_visit`, i.e. it visits the child statements and emits nothing
  for the node itself).
* `St` embeds the mutable fields of the `PyToLua` visitor object
  (`lines`, `indent`, `imports`, `has_main`).
* `exprT` embeds method `PyToLua.expr`; `binop`/`cmpop` embed the methods
  of the same names.  Exceptions (`NotImplementedError`) become
  `Except String`.
* `visitStmt`/`visitStmts` embed the statement visitors.  Since the Python
  visitor mutates `self` and lets exceptions propagate without cleanup,
  a statement visit returns the mutated state *together with* an optional
  error: on `some e` the visit raised after performing the recorded
  mutations (in particular `indent` is *not* rolled back by the source).
* `visitModule` embeds `PyToLua.visit_Module` and `transpile` the
  tree-to-text part of `transpile_file` (file I/O is out of scope).
-/

namespace Transpiler

/-- Embeds Python `str.split(sep)` for a one-character separator, at the
character-list level: splitting the empty string yields `[[]]`, and every
occurrence of the separator starts a new (possibly empty) segment. -/
def splitOnChar (sep : Char) : List Char → List (List Char)
  | [] => [[]]
  | c :: cs =>
    let rest := splitOnChar sep cs
    if c == sep then
      [] :: rest
    else
      match rest with
      | [] => [[c]]
      | seg :: segs => (c :: seg) :: segs

/-- Embeds Python `str.capitalize`: first character upper-cased, all
remaining characters lower-cased (ASCII model). -/
def pyCapitalize (s : List Char) : List Char :=
  match s with
  | [] => []
  | c :: cs => c.toUpper :: cs.map Char.toLower

/-- Embeds `snake_to_camel` from `src/transpiler.py`: split on `_`, keep
the first segment, `str.capitalize` each later segment, concatenate. -/
def snake_to_camel (name : String) : String :=
  let parts := splitOnChar '_' name.data
  match parts with
  | [] => name
  | p :: ps => String.mk (p ++ (ps.map pyCapitalize).flatten)

/-- Embeds the Python constant values the transpiler can meet inside an
`ast.Constant` node: strings, integers, booleans and `None`. -/
inductive Const
  | str (s : String)
  | int (n : Int)
  | bool (b : Bool)
  | none
  deriving DecidableEq, Repr

/-- Embeds Python `repr` on the non-string constants reached by the
`return repr(node.value)` fallback in `PyToLua.expr`. -/
def constRepr : Const → String
  | .str s => "'" ++ s ++ "'"
  | .int n => toString n
  | .bool b => if b then "True" else "False"
  | .none => "None"

/-- Embeds the Python `ast` binary-operator classes: the four the
transpiler maps plus representatives of the unmapped ones. -/
inductive BinOpK
  | add
  | sub
  | mult
  | div
  | modOp
  | powOp
  deriving DecidableEq, Repr

/-- Embeds the Python `ast` unary-operator classes: `USub` plus the
unmapped ones. -/
inductive UnaryOpK
  | uSub
  | uAdd
  | notOp
  deriving DecidableEq, Repr

/-- Embeds the Python `ast` comparison-operator classes: the six the
transpiler maps plus representatives of the unmapped ones. -/
inductive CmpOpK
  | eq
  | notEq
  | lt
  | ltE
  | gt
  | gtE
  | isOp
  | inOp
  deriving DecidableEq, Repr

/-- Printable name of a binary operator, standing in for Python's
`f"{op}"` in the error message of `PyToLua.binop`. -/
def BinOpK.dump : BinOpK → String
  | .add => "Add"
  | .sub => "Sub"
  | .mult => "Mult"
  | .div => "Div"
  | .modOp => "Mod"
  | .powOp => "Pow"

/-- Printable name of a comparison operator, standing in for Python's
`f"{op}"` in the error message of `PyToLua.cmpop`. -/
def CmpOpK.dump : CmpOpK → String
  | .eq => "Eq"
  | .notEq => "NotEq"
  | .lt => "Lt"
  | .ltE => "LtE"
  | .gt => "Gt"
  | .gtE => "GtE"
  | .isOp => "Is"
  | .inOp => "In"

/-- Embeds the expression nodes of Python's `ast` module inspected by
`PyToLua.expr`.  `unsupported` stands for any expression node kind with no
`isinstance` branch (e.g. `ast.List`, `ast.Lambda`); it carries the
`ast.dump` text used in the raised error message. -/
inductive Expr
  | constant (v : Const)
  | name (id : String)
  | attribute (value : Expr) (attr : String)
  | binOp (left : Expr) (op : BinOpK) (right : Expr)
  | unaryOp (op : UnaryOpK) (operand : Expr)
  | compare (left : Expr) (ops : List CmpOpK) (comparators : List Expr)
  | call (func : Expr) (args : List Expr)
  | unsupported (dump : String)

/-- Embeds `ast.alias`: an imported name with an optional `as` rename. -/
structure Alias where
  name : String
  asname : Option String
  deriving DecidableEq, Repr

/-- Embeds `ast.arguments`.  `PyToLua.visit_FunctionDef` reads only the
`args` field (the plain positional parameter names); the other fields are
present on the Python node but never inspected by the transpiler. -/
structure Arguments where
  args : List String
  defaults : List Expr
  vararg : Option String
  kwonlyargs : List String
  kwarg : Option String

/-- Embeds the statement nodes of Python's `ast` module that `PyToLua`
defines visitors for.  `other` stands for any statement kind with no
`visit_…` method (e.g. `ast.Pass`, `ast.Return`, `ast.For`):
`ast.NodeVisitor.visit` then falls back to `generic_visit`, which visits
the node's children; `other` carries the child statements that
`generic_visit` would reach. -/
inductive Stmt
  | exprStmt (value : Expr)
  | assign (targets : List Expr) (value : Expr)
  | ifStmt (test : Expr) (body : List Stmt) (orelse : List Stmt)
  | whileStmt (test : Expr) (body : List Stmt)
  | functionDef (name : String) (args : Arguments) (body : List Stmt)
  | importFrom (module : Option String) (names : List Alias)
  | importStmt (names : List Alias)
  | other (kind : String) (children : List Stmt)

/-- The import map of `PyToLua` (`self.imports`), a Python dict from local
name to `(module, original_name)`.  Embedded as an association list with
insertion at the front; `lookupImp` takes the most recent binding, which
matches dict overwrite semantics. -/
abbrev ImportMap := List (String × String × Option String)

/-- Dict lookup in the import map: first (most recent) binding wins. -/
def lookupImp : ImportMap → String → Option (String × Option String)
  | [], _ => Option.none
  | (k, v) :: rest, key => if k == key then Option.some v else lookupImp rest key

/-- Dict assignment `self.imports[local] = value`. -/
def insertImp (m : ImportMap) (key : String) (v : String × Option String) :
    ImportMap :=
  (key, v) :: m

/-- Embeds the mutable fields of the `PyToLua` visitor object. -/
structure St where
  lines : List String
  indent : Nat
  imports : ImportMap
  has_main : Bool
  deriving DecidableEq, Repr

/-- The freshly constructed visitor (`PyToLua.__init__`). -/
def initSt : St :=
  { lines := [], indent := 0, imports := [], has_main := false }

/-- The indentation prefix `"    " * n` of `PyToLua.emit`. -/
def indentPrefix (n : Nat) : String :=
  String.join (List.replicate n ("    "))

/-- Embeds `PyToLua.emit`: append one line prefixed by the current
indentation ("    " repeated `indent` times). -/
def emit (st : St) (text : String) : St :=
  { st with lines := st.lines ++ [indentPrefix st.indent ++ text] }

/-- Embeds `PyToLua.binop`: the four supported operators map to their Lua
symbols, anything else raises `NotImplementedError`. -/
def binop : BinOpK → Except String String
  | .add => .ok ("+")
  | .sub => .ok ("-")
  | .mult => .ok ("*")
  | .div => .ok ("/")
  | op => .error ("Unsupported binop: " ++ op.dump)

/-- Embeds `PyToLua.cmpop`: the six supported comparison operators map to
their Lua symbols, anything else raises `NotImplementedError`. -/
def cmpop : CmpOpK → Except String String
  | .eq => .ok ("==")
  | .notEq => .ok ("~=")
  | .lt => .ok ("<")
  | .ltE => .ok ("<=")
  | .gt => .ok (">")
  | .gtE => .ok (">=")
  | op => .error ("Unsupported cmpop: " ++ op.dump)

mutual

/-- Embeds `PyToLua.expr`, reading the visitor's import map.  Raised
`NotImplementedError`s become `Except.error`. -/
def exprT (imps : ImportMap) : Expr → Except String String
  | .constant v =>
    match v with
    | .str s => .ok ("\"" ++ s ++ "\"")
    | c => .ok (constRepr c)
  | .name id => .ok id
  | .attribute value attr => do
    let value_src ← exprT imps value
    match value with
    | .name id =>
      match lookupImp imps id with
      | Option.some (m, _) =>
        if m == "cc_lib" then
          .ok (value_src ++ "." ++ snake_to_camel attr)
        else
          .ok (value_src ++ "." ++ attr)
      | Option.none => .ok (value_src ++ "." ++ attr)
    | _ => .ok (value_src ++ "." ++ attr)
  | .binOp l op r => do
    let left ← exprT imps l
    let right ← exprT imps r
    let o ← binop op
    .ok ("(" ++ left ++ " " ++ o ++ " " ++ right ++ ")")
  | .unaryOp op operand => do
    let os ← exprT imps operand
    match op with
    | .uSub => .ok ("(-" ++ os ++ ")")
    | _ => .error ("Only unary minus supported")
  | .compare l ops comparators =>
    match ops, comparators with
    | [op], [c] => do
      let left ← exprT imps l
      let right ← exprT imps c
      let o ← cmpop op
      .ok ("(" ++ left ++ " " ++ o ++ " " ++ right ++ ")")
    | _, _ => .error ("Only simple comparisons supported")
  | .call f args => do
    let func ← exprT imps f
    let argStrs ← exprListT imps args
    .ok (func ++ "(" ++ String.intercalate (", ") argStrs ++ ")")
  | .unsupported dump => .error ("Unsupported expression: " ++ dump)

/-- Translation of an argument list, in order (the generator expression in
the `ast.Call` branch of `PyToLua.expr`). -/
def exprListT (imps : ImportMap) : List Expr → Except String (List String)
  | [] => .ok []
  | e :: es => do
    let s ← exprT imps e
    let ss ← exprListT imps es
    .ok (s :: ss)

end

/-- Record one `ast.alias` of an `ast.ImportFrom` node
(`self.imports[local] = (module, alias.name)`). -/
def recordFromAlias (m : String) (imps : ImportMap) (a : Alias) : ImportMap :=
  insertImp imps (a.asname.getD a.name) (m, Option.some a.name)

/-- Record one `ast.alias` of an `ast.Import` node
(`self.imports[local] = (alias.name, None)`). -/
def recordImportAlias (imps : ImportMap) (a : Alias) : ImportMap :=
  insertImp imps (a.asname.getD a.name) (a.name, Option.none)

mutual

/-- Embeds one statement visit of `PyToLua`.  The returned state carries
all mutations performed before a possible raise; `some e` means the visit
raised `NotImplementedError e` (so in the source the exception propagates
with the state as returned here — no cleanup is performed). -/
def visitStmt : Stmt → St → St × Option String
  | .exprStmt v, st =>
    match exprT st.imports v with
    | .ok s => (emit st s, Option.none)
    | .error e => (st, Option.some e)
  | .assign targets value, st =>
    match targets with
    | [t] =>
      match exprT st.imports t with
      | .error e => (st, Option.some e)
      | .ok ts =>
        match exprT st.imports value with
        | .error e => (st, Option.some e)
        | .ok vs => (emit st ("local " ++ ts ++ " = " ++ vs), Option.none)
    | _ => (st, Option.some ("Only single assignment supported"))
  | .ifStmt test body orelse, st =>
    match exprT st.imports test with
    | .error e => (st, Option.some e)
    | .ok cond =>
      let st := emit st ("if " ++ cond ++ " then")
      let st := { st with indent := st.indent + 1 }
      match visitStmts body st with
      | (st, Option.some e) => (st, Option.some e)
      | (st, Option.none) =>
        let st := { st with indent := st.indent - 1 }
        match orelse with
        | [] => (emit st ("end"), Option.none)
        | _ =>
          let st := emit st ("else")
          let st := { st with indent := st.indent + 1 }
          match visitStmts orelse st with
          | (st, Option.some e) => (st, Option.some e)
          | (st, Option.none) =>
            let st := { st with indent := st.indent - 1 }
            (emit st ("end"), Option.none)
  | .whileStmt test body, st =>
    match exprT st.imports test with
    | .error e => (st, Option.some e)
    | .ok cond =>
      let st := emit st ("while " ++ cond ++ " do")
      let st := { st with indent := st.indent + 1 }
      match visitStmts body st with
      | (st, Option.some e) => (st, Option.some e)
      | (st, Option.none) =>
        let st := { st with indent := st.indent - 1 }
        (emit st ("end"), Option.none)
  | .functionDef name args body, st =>
    let args_src := String.intercalate (", ") args.args
    let st := emit st ("function " ++ name ++ "(" ++ args_src ++ ")")
    let st := { st with indent := st.indent + 1 }
    match visitStmts body st with
    | (st, Option.some e) => (st, Option.some e)
    | (st, Option.none) =>
      let st := { st with indent := st.indent - 1 }
      let st := emit st ("end")
      if name == "main" then
        ({ st with has_main := true }, Option.none)
      else
        (st, Option.none)
  | .importFrom module names, st =>
    match module with
    | Option.none => (st, Option.none)
    | Option.some m =>
      ({ st with imports := names.foldl (recordFromAlias m) st.imports },
        Option.none)
  | .importStmt names, st =>
    ({ st with imports := names.foldl recordImportAlias st.imports },
      Option.none)
  | .other _ children, st => visitStmts children st

/-- Visit a statement list in order, stopping at the first raise (the
exception propagates out of the enclosing `for` loop). -/
def visitStmts : List Stmt → St → St × Option String
  | [], st => (st, Option.none)
  | s :: ss, st =>
    match visitStmt s st with
    | (st, Option.some e) => (st, Option.some e)
    | (st, Option.none) => visitStmts ss st

end

/-- Embeds `PyToLua.visit_Module`: visit every top-level statement, then
auto-call `main` if `has_main` was set. -/
def visitModule (body : List Stmt) (st : St) : St × Option String :=
  match visitStmts body st with
  | (st, Option.some e) => (st, Option.some e)
  | (st, Option.none) =>
    if st.has_main then (emit st ("main()"), Option.none) else (st, Option.none)

/-- Embeds the pure part of `transpile_file`: run a fresh visitor over the
module body and join the emitted lines with newlines; a raised
`NotImplementedError` aborts with no output written. -/
def transpile (body : List Stmt) : Except String String :=
  match visitModule body initSt with
  | (st, Option.none) => .ok (String.intercalate ("\n") st.lines)
  | (_, Option.some e) => .error e

mutual

/-- Whether a `FunctionDef` node named `main` occurs anywhere in a
statement, at any nesting depth that the visitor reaches (function
bodies, branch bodies, loop bodies and the children of `other` nodes).
This is the condition under which the visitor's `has_main` flag is set
by a successful visit. -/
def hasMainDef : Stmt → Bool
  | .functionDef name _ body => name == "main" || hasMainDefs body
  | .ifStmt _ body orelse => hasMainDefs body || hasMainDefs orelse
  | .whileStmt _ body => hasMainDefs body
  | .other _ children => hasMainDefs children
  | _ => false

/-- `hasMainDef` over a statement list. -/
def hasMainDefs : List Stmt → Bool
  | [] => false
  | s :: ss => hasMainDef s || hasMainDefs ss

end

/-- The side condition of the attribute-rewriting branch in
`PyToLua.expr`: the base is a bare identifier, it is present in
the import map, and its recorded origin module is `cc_lib`. -/
def ccLibBase (imps : ImportMap) : Expr → Bool
  | .name id =>
    match lookupImp imps id with
    | Option.some (m, _) => m == "cc_lib"
    | Option.none => false
  | _ => false

/-- Upper-case the first character and leave the rest unchanged. -/
def upperFirst (s : List Char) : List Char :=
  match s with
  | [] => []
  | c :: cs => c.toUpper :: cs

/-- The Naming Converter as the specification words it (for comparison
with `snake_to_camel`, which embeds the source): the first segment,
then each subsequent segment with its first character upper-cased and
the rest left *unchanged*, concatenated with no delimiter. -/
def snake_to_camel_spec (name : String) : String :=
  let parts := splitOnChar '_' name.data
  match parts with
  | [] => name
  | p :: ps => String.mk (p ++ (ps.map upperFirst).flatten)

/-- An empty `ast.arguments` record (`def f(): …`). -/
def noParams : Arguments :=
  { args := [], defaults := [], vararg := Option.none, kwonlyargs := [],
    kwarg := Option.none }

/-- An `ast.arguments` record for `def f(a, b=1): …`: CPython puts both
names in `args` and the default expression in `defaults`. -/
def defaultedParams : Arguments :=
  { args := [("a"), ("b")], defaults := [.constant (.int 1)],
    vararg := Option.none, kwonlyargs := [], kwarg := Option.none }

/-- The same parameter names with the `defaults` entry removed. -/
def plainParams : Arguments :=
  { args := [("a"), ("b")], defaults := [], vararg := Option.none,
    kwonlyargs := [], kwarg := Option.none }

/-- A module whose only `main` definition is nested inside another
function: `def outer():  def main(): pass`. -/
def nestedMainBody : List Stmt :=
  [.functionDef ("outer") noParams [.functionDef ("main") noParams [.other ("Pass") []]]]

/-! ## General lemmas about the visitor -/

/-- Visiting a statement only ever appends to the line buffer. -/
theorem visitStmt_lines_mono : ∀ s st, ∃ l, (visitStmt s st).1.lines = st.lines ++ l := by
  refine visitStmt.induct
    (fun s st => ∃ l, (visitStmt s st).1.lines = st.lines ++ l)
    (fun ss st => ∃ l, (visitStmts ss st).1.lines = st.lines ++ l)
    ?_ ?_ ?_ ?_ ?_ ?_ ?_ ?_ ?_ ?_ ?_ ?_ ?_ ?_ ?_ ?_ ?_ ?_ ?_ ?_ ?_ ?_ ?_ ?_
  all_goals intros
  all_goals try simp_all +zetaDelta [visitStmt, visitStmts, emit]
  case refine_8 =>
    rename_i ih1
    obtain ⟨l1, hl1⟩ := ih1
    exact ⟨_, hl1⟩
  case refine_9 =>
    rename_i ih1
    obtain ⟨l1, hl1⟩ := ih1
    exact ⟨_, by rw [hl1, List.append_assoc]⟩
  case refine_10 =>
    rename_i ih2 ih1
    obtain ⟨l2, hl2⟩ := ih2
    obtain ⟨l1, hl1⟩ := ih1
    rw [hl2, List.append_assoc] at hl1
    exact ⟨_, hl1⟩
  case refine_11 =>
    rename_i ih2 ih1
    obtain ⟨l2, hl2⟩ := ih2
    obtain ⟨l1, hl1⟩ := ih1
    rw [hl2, List.append_assoc] at hl1
    exact ⟨_, by rw [hl1, List.append_assoc]⟩
  case refine_13 =>
    rename_i ih1
    obtain ⟨l1, hl1⟩ := ih1
    exact ⟨_, hl1⟩
  case refine_14 =>
    rename_i ih1
    obtain ⟨l1, hl1⟩ := ih1
    exact ⟨_, by rw [hl1, List.append_assoc]⟩
  case refine_15 =>
    rename_i ih1
    obtain ⟨l1, hl1⟩ := ih1
    exact ⟨_, hl1⟩
  case refine_16 =>
    rename_i ih1
    obtain ⟨l1, hl1⟩ := ih1
    exact ⟨_, by rw [hl1, List.append_assoc]⟩
  case refine_17 =>
    rename_i ih1
    obtain ⟨l1, hl1⟩ := ih1
    exact ⟨_, by rw [hl1, List.append_assoc]⟩
  case refine_24 =>
    rename_i ihs ihss
    obtain ⟨l1, hl1⟩ := ihs
    obtain ⟨l2, hl2⟩ := ihss
    rw [hl1, List.append_assoc] at hl2
    exact ⟨_, hl2⟩

/-- Visiting a statement list only ever appends to the line buffer. -/
theorem visitStmts_lines_mono :
    ∀ ss st, ∃ l, (visitStmts ss st).1.lines = st.lines ++ l := by
  intro ss
  induction ss with
  | nil => intro st; exact ⟨[], by simp [visitStmts]⟩
  | cons s ss ih =>
    intro st
    obtain ⟨l1, h1⟩ := visitStmt_lines_mono s st
    match h : visitStmt s st with
    | (st1, Option.some e) =>
      rw [h] at h1
      refine ⟨l1, ?_⟩
      simp only [visitStmts, h]
      exact h1
    | (st1, Option.none) =>
      rw [h] at h1
      obtain ⟨l2, h2⟩ := ih st1
      refine ⟨l1 ++ l2, ?_⟩
      simp only [visitStmts, h]
      rw [h2, h1, List.append_assoc]

/-- A successful statement visit restores the indentation depth and sets
`has_main` exactly when the statement (recursively) defines a function
named `main`. -/
theorem visitStmt_success_inv :
    ∀ s st, ∀ st', visitStmt s st = (st', Option.none) →
      st'.indent = st.indent ∧ st'.has_main = (st.has_main || hasMainDef s) := by
  refine visitStmt.induct
    (fun s st => ∀ st', visitStmt s st = (st', Option.none) →
      st'.indent = st.indent ∧ st'.has_main = (st.has_main || hasMainDef s))
    (fun ss st => ∀ st', visitStmts ss st = (st', Option.none) →
      st'.indent = st.indent ∧ st'.has_main = (st.has_main || hasMainDefs ss))
    ?_ ?_ ?_ ?_ ?_ ?_ ?_ ?_ ?_ ?_ ?_ ?_ ?_ ?_ ?_ ?_ ?_ ?_ ?_ ?_ ?_ ?_ ?_ ?_
  all_goals intros
  all_goals try simp_all +zetaDelta [visitStmt, visitStmts, emit, hasMainDef, hasMainDefs,
    Bool.or_assoc, beq_eq_false_iff_ne, ne_eq]
  case refine_17 =>
    rename_i hne ih
    obtain ⟨hi, hm⟩ := ih
    rw [beq_eq_false_iff_ne.mpr hne]
    simp

/-- A successful visit of a statement list restores the indentation depth
and sets `has_main` exactly when some statement defines `main`. -/
theorem visitStmts_success_inv :
    ∀ ss st st', visitStmts ss st = (st', Option.none) →
      st'.indent = st.indent ∧ st'.has_main = (st.has_main || hasMainDefs ss) := by
  intro ss
  induction ss with
  | nil => intro st st' h; simp [visitStmts] at h; simp [← h, hasMainDefs]
  | cons s ss ih =>
    intro st st' h
    match hs : visitStmt s st with
    | (st1, Option.some e) => simp [visitStmts, hs] at h
    | (st1, Option.none) =>
      simp only [visitStmts, hs] at h
      obtain ⟨hi1, hm1⟩ := visitStmt_success_inv s st st1 hs
      obtain ⟨hi2, hm2⟩ := ih st1 st' h
      refine ⟨by rw [hi2, hi1], ?_⟩
      rw [hm2, hm1, hasMainDefs, Bool.or_assoc]

/-- Splitting a list that does not contain the separator yields the list
itself as the single segment, matching Python `s.split(sep)`. -/
theorem splitOnChar_of_not_mem (sep : Char) :
    ∀ l : List Char, sep ∉ l → splitOnChar sep l = [l] := by
  intro l h
  induction l with
  | nil => rfl
  | cons c cs ih =>
    simp only [List.mem_cons, not_or] at h
    obtain ⟨h1, h2⟩ := h
    have hc : (c == sep) = false := beq_eq_false_iff_ne.mpr (fun he => h1 he.symm)
    simp [splitOnChar, hc, ih h2]

/-- On a segment with no upper-case tail characters, Python
`str.capitalize` coincides with upper-casing only the first character. -/
theorem pyCapitalize_eq_upperFirst (seg : List Char) (h : ∀ ch ∈ seg, ch.toLower = ch) :
    pyCapitalize seg = upperFirst seg := by
  cases seg with
  | nil => rfl
  | cons c cs =>
    simp only [pyCapitalize, upperFirst, List.cons.injEq, true_and]
    have : ∀ ch ∈ cs, ch.toLower = ch := fun ch hm => h ch (List.mem_cons_of_mem c hm)
    calc cs.map Char.toLower = cs.map id := List.map_congr_left this
    _ = cs := List.map_id cs

/-! ## The claims -/

/-- C1, counterexample to the claim as stated: a statement node of a
non-enumerated kind (a `pass` statement, a bare `return`) does NOT make
translation fail — it is silently skipped, and a module consisting only
of such a node translates successfully to empty output. -/
theorem C1_counterexample :
    visitStmt (.other ("Pass") []) initSt = (initSt, Option.none) ∧
    transpile [.other ("Return") []] = .ok ("") :=
  ⟨rfl, rfl⟩

/-- C1 (amended): an unsupported *expression* node makes translation fail
immediately with an error carrying the node's dump; an unsupported
*statement* kind does not fail — the visitor's generic fallback emits
nothing for the node itself but still visits its child statements, so
partial output can be produced (here: the loop-less body of a `For`-like
node). -/
theorem C1_unsupported_kinds :
    (∀ (imps : ImportMap) (dump : String),
      exprT imps (.unsupported dump) = .error ("Unsupported expression: " ++ dump)) ∧
    (∀ (kind : String) (st : St), visitStmt (.other kind []) st = (st, Option.none)) ∧
    (∀ (kind : String) (st : St) (t v : Expr) (ts vs : String),
      exprT st.imports t = .ok ts → exprT st.imports v = .ok vs →
      visitStmt (.other kind [.assign [t] v]) st =
        (emit st ("local " ++ ts ++ " = " ++ vs), Option.none)) := by
  refine ⟨fun _ _ => rfl, fun _ _ => rfl, ?_⟩
  intro kind st t v ts vs ht hv
  simp only [visitStmt, visitStmts]
  rw [ht, hv]

/-- C1, witness: the third part of `C1_unsupported_kinds` at a concrete
`For`-like node containing an assignment. -/
theorem C1_witness :
    visitStmt (.other ("For") [.assign [.name ("y")] (.constant (.int 1))]) initSt =
      (emit initSt ("local y = 1"), Option.none) :=
  C1_unsupported_kinds.2.2 ("For") initSt (.name ("y")) (.constant (.int 1))
    ("y") ("1") rfl rfl

/-- C2, counterexample to the claim as stated: `def f(a, b=1): pass`
(a parameter with a default value) does NOT make translation fail; the
header is emitted as `function f(a, b)`. -/
theorem C2_counterexample :
    visitStmt (.functionDef ("f") defaultedParams [.other ("Pass") []]) initSt =
      ({ lines := [("function f(a, b)"), ("end")], indent := 0, imports := [],
         has_main := false }, Option.none) :=
  rfl

/-- C2 (amended): non-bare parameter forms are silently ignored rather
than rejected — the emitted header lists exactly the names of the plain
positional-argument list, and the result of translating a
`FunctionDefinition` depends only on that list. -/
theorem C2_function_params :
    (∀ (name : String) (args : Arguments) (body : List Stmt) (st : St), ∃ rest,
      (visitStmt (.functionDef name args body) st).1.lines =
        st.lines ++ [indentPrefix st.indent ++ ("function " ++ name ++ "(" ++
          String.intercalate (", ") args.args ++ ")")] ++ rest) ∧
    (∀ (name : String) (a1 a2 : Arguments) (body : List Stmt) (st : St),
      a1.args = a2.args →
      visitStmt (.functionDef name a1 body) st =
        visitStmt (.functionDef name a2 body) st) := by
  constructor
  · intro name args body st
    simp only [visitStmt, emit]
    obtain ⟨l, hl⟩ := visitStmts_lines_mono body
      { lines := st.lines ++
          [indentPrefix st.indent ++ ("function " ++ name ++ "(" ++
            String.intercalate (", ") args.args ++ ")")],
        indent := st.indent + 1, imports := st.imports, has_main := st.has_main }
    cases hb : visitStmts body
      { lines := st.lines ++
          [indentPrefix st.indent ++ ("function " ++ name ++ "(" ++
            String.intercalate (", ") args.args ++ ")")],
        indent := st.indent + 1, imports := st.imports, has_main := st.has_main } with
    | mk st3 err =>
      rw [hb] at hl
      cases err with
      | some e => exact ⟨l, by simp only [hb]; simpa using hl⟩
      | none =>
        simp only at hl
        refine ⟨l ++ [indentPrefix (st3.indent - 1) ++ ("end")], ?_⟩
        by_cases hn : (name == "main") = true <;>
          simp [hb, hn, emit, hl]
  · intro name a1 a2 body st h
    simp only [visitStmt]
    rw [h]

/-- C2, witness: the second part of `C2_function_params` at concrete
argument records differing only in the ignored `defaults` field. -/
theorem C2_witness :
    visitStmt (.functionDef ("f") defaultedParams []) initSt =
      visitStmt (.functionDef ("f") plainParams []) initSt :=
  C2_function_params.2 ("f") defaultedParams plainParams [] initSt rfl

/-- C3, counterexample to the claim as stated: a module whose only `main`
is nested inside another function still gets the auto-call — the output's
last line is `main()`. -/
theorem C3_counterexample :
    transpile nestedMainBody =
      .ok ("function outer()\n    function main()\n    end\nend\nmain()") :=
  rfl

/-- C3 (amended): on a successfully translated module the call `main()`
is appended (as an unindented final line) iff a function named `main` is
defined *anywhere* in the module — at top level or nested at any visited
depth — and not appended otherwise. -/
theorem C3_main_autocall :
    ∀ (body : List Stmt) (st2 : St), visitStmts body initSt = (st2, Option.none) →
      (visitModule body initSt).2 = Option.none ∧
      (visitModule body initSt).1.lines =
        st2.lines ++ (if hasMainDefs body = true then [("main()")] else []) := by
  intro body st2 h
  obtain ⟨hi, hm⟩ := visitStmts_success_inv body initSt st2 h
  simp only [initSt] at hi hm
  simp only [Bool.false_or] at hm
  simp only [visitModule, h]
  by_cases hmd : hasMainDefs body = true
  · rw [hm, hmd]
    simp only [if_true, emit, indentPrefix, hi]
    exact ⟨trivial, by rfl⟩
  · rw [hm]
    simp only [Bool.not_eq_true] at hmd
    simp [hmd]

/-- C3, witness: `C3_main_autocall` at the nested-`main` module;
`hasMainDefs` holds, so `main()` is appended. -/
theorem C3_witness :
    (visitModule nestedMainBody initSt).2 = Option.none ∧
    (visitModule nestedMainBody initSt).1.lines =
      ({ lines := [("function outer()"), ("    function main()"), ("    end"), ("end")],
         indent := 0, imports := [], has_main := true } : St).lines ++
        (if hasMainDefs nestedMainBody = true then [("main()")] else []) :=
  C3_main_autocall nestedMainBody
    { lines := [("function outer()"), ("    function main()"), ("    end"), ("end")],
      indent := 0, imports := [], has_main := true } rfl

/-- C4, counterexample to the claim as stated: translation is NOT
independent of where the import appears — with the import after the use,
`peripheral.get_names` is emitted unrewritten, while with the import
first it is rewritten to `peripheral.getNames`. -/
theorem C4_counterexample :
    transpile [.exprStmt (.call (.attribute (.name ("peripheral")) ("get_names")) []),
        .importFrom (Option.some ("cc_lib")) [⟨("peripheral"), Option.none⟩]] =
      .ok ("peripheral.get_names()") ∧
    transpile [.importFrom (Option.some ("cc_lib")) [⟨("peripheral"), Option.none⟩],
        .exprStmt (.call (.attribute (.name ("peripheral")) ("get_names")) [])] =
      .ok ("peripheral.getNames()") :=
  ⟨rfl, rfl⟩

/-- C4 (amended): recording of imports happens during the single
statement walk, so an attribute access on a `cc_lib` alias is rewritten
when the binding import statement precedes the use, and left unrewritten
when the use precedes it (given the alias was not already bound). -/
theorem C4_import_order :
    ∀ (a m : String) (st : St), lookupImp st.imports a = Option.none →
      ((visitStmts [.importFrom (Option.some ("cc_lib")) [⟨a, Option.none⟩],
          .exprStmt (.attribute (.name a) m)] st).1.lines =
        st.lines ++ [indentPrefix st.indent ++ (a ++ "." ++ snake_to_camel m)]) ∧
      ((visitStmts [.exprStmt (.attribute (.name a) m),
          .importFrom (Option.some ("cc_lib")) [⟨a, Option.none⟩]] st).1.lines =
        st.lines ++ [indentPrefix st.indent ++ (a ++ "." ++ m)]) := by
  intro a m st h
  constructor
  · simp [visitStmts, visitStmt, exprT, recordFromAlias, insertImp, lookupImp, emit,
      Except.bind, bind]
  · simp [visitStmts, visitStmt, exprT, h, emit, Except.bind, bind]

/-- C4, witness: `C4_import_order` at `peripheral`/`get_names` on the
fresh visitor state. -/
theorem C4_witness :
    ((visitStmts [.importFrom (Option.some ("cc_lib")) [⟨("peripheral"), Option.none⟩],
        .exprStmt (.attribute (.name ("peripheral")) ("get_names"))] initSt).1.lines =
      initSt.lines ++ [indentPrefix initSt.indent ++
        ("peripheral" ++ "." ++ snake_to_camel ("get_names"))]) ∧
    ((visitStmts [.exprStmt (.attribute (.name ("peripheral")) ("get_names")),
        .importFrom (Option.some ("cc_lib")) [⟨("peripheral"), Option.none⟩]] initSt).1.lines =
      initSt.lines ++ [indentPrefix initSt.indent ++
        ("peripheral" ++ "." ++ ("get_names"))]) :=
  C4_import_order ("peripheral") ("get_names") initSt rfl

/-- C5, counterexample to the claim as stated: when translating the body
of an `if` fails, the indentation depth is NOT restored before the error
propagates — it stays at 1 although it was 0 on entry. -/
theorem C5_counterexample :
    initSt.indent = 0 ∧
    (visitStmt (.ifStmt (.name ("x")) [.exprStmt (.unsupported ("Lambda"))] [])
        initSt).1.indent = 1 ∧
    (visitStmt (.ifStmt (.name ("x")) [.exprStmt (.unsupported ("Lambda"))] [])
        initSt).2 = Option.some ("Unsupported expression: Lambda") :=
  ⟨rfl, rfl, rfl⟩

/-- C5 (amended): on *successful* translation of any statement the
indentation depth is restored to its entry value, and every successfully
translated block — `while`, `if` without else, `if` with else, and
`function` — consists of its header line and exactly one matching `end`
line at the entry indentation around the body lines (with one `else`
line at the entry indentation between the branches for the two-branch
form); the restoration does not extend to error exits (see the
counterexample). -/
theorem C5_indent_discipline :
    (∀ (s : Stmt) (st st2 : St), visitStmt s st = (st2, Option.none) →
      st2.indent = st.indent) ∧
    (∀ (test : Expr) (body : List Stmt) (st st2 : St),
      visitStmt (.whileStmt test body) st = (st2, Option.none) →
      ∃ cond mid, st2.lines = st.lines ++
        [indentPrefix st.indent ++ ("while " ++ cond ++ " do")] ++ mid ++
        [indentPrefix st.indent ++ ("end")]) ∧
    (∀ (test : Expr) (body : List Stmt) (st st2 : St),
      visitStmt (.ifStmt test body []) st = (st2, Option.none) →
      ∃ cond mid, st2.lines = st.lines ++
        [indentPrefix st.indent ++ ("if " ++ cond ++ " then")] ++ mid ++
        [indentPrefix st.indent ++ ("end")]) ∧
    (∀ (test : Expr) (body orelse : List Stmt) (st st2 : St), orelse ≠ [] →
      visitStmt (.ifStmt test body orelse) st = (st2, Option.none) →
      ∃ cond mid1 mid2, st2.lines = st.lines ++
        [indentPrefix st.indent ++ ("if " ++ cond ++ " then")] ++ mid1 ++
        [indentPrefix st.indent ++ ("else")] ++ mid2 ++
        [indentPrefix st.indent ++ ("end")]) ∧
    (∀ (name : String) (args : Arguments) (body : List Stmt) (st st2 : St),
      visitStmt (.functionDef name args body) st = (st2, Option.none) →
      ∃ mid, st2.lines = st.lines ++
        [indentPrefix st.indent ++ ("function " ++ name ++ "(" ++
          String.intercalate (", ") args.args ++ ")")] ++ mid ++
        [indentPrefix st.indent ++ ("end")]) := by
  refine ⟨?_, ?_, ?_, ?_, ?_⟩
  · intro s st st2 h
    exact (visitStmt_success_inv s st st2 h).1
  · intro test body st st2 h
    cases hc : exprT st.imports test with
    | error e => simp [visitStmt, hc] at h
    | ok cond =>
      simp only [visitStmt, hc, emit] at h
      cases hb : visitStmts body
        { lines := st.lines ++ [indentPrefix st.indent ++ ("while " ++ cond ++ " do")],
          indent := st.indent + 1, imports := st.imports, has_main := st.has_main } with
      | mk st3 err =>
        rw [hb] at h
        cases err with
        | some e => simp at h
        | none =>
          obtain ⟨l, hl⟩ := visitStmts_lines_mono body
            { lines := st.lines ++ [indentPrefix st.indent ++ ("while " ++ cond ++ " do")],
              indent := st.indent + 1, imports := st.imports, has_main := st.has_main }
          rw [hb] at hl
          simp only at hl
          obtain ⟨hi3, _⟩ := visitStmts_success_inv body _ st3 hb
          simp only at hi3
          simp only [Prod.mk.injEq, and_true] at h
          refine ⟨cond, l, ?_⟩
          rw [← h]
          simp [hl, hi3, List.append_assoc]
  · intro test body st st2 h
    cases hc : exprT st.imports test with
    | error e => simp [visitStmt, hc] at h
    | ok cond =>
      simp only [visitStmt, hc, emit] at h
      cases hb : visitStmts body
        { lines := st.lines ++ [indentPrefix st.indent ++ ("if " ++ cond ++ " then")],
          indent := st.indent + 1, imports := st.imports, has_main := st.has_main } with
      | mk st3 err =>
        rw [hb] at h
        cases err with
        | some e => simp at h
        | none =>
          obtain ⟨l, hl⟩ := visitStmts_lines_mono body
            { lines := st.lines ++ [indentPrefix st.indent ++ ("if " ++ cond ++ " then")],
              indent := st.indent + 1, imports := st.imports, has_main := st.has_main }
          rw [hb] at hl
          simp only at hl
          obtain ⟨hi3, _⟩ := visitStmts_success_inv body _ st3 hb
          simp only at hi3
          simp only [Prod.mk.injEq, and_true] at h
          refine ⟨cond, l, ?_⟩
          rw [← h]
          simp [hl, hi3, List.append_assoc]
  · intro test body orelse st st2 hne h
    rcases orelse with _ | ⟨o1, orest⟩
    · exact absurd rfl hne
    · cases hc : exprT st.imports test with
      | error e => simp [visitStmt, hc] at h
      | ok cond =>
        simp only [visitStmt, hc, emit] at h
        cases hb : visitStmts body
          { lines := st.lines ++ [indentPrefix st.indent ++ ("if " ++ cond ++ " then")],
            indent := st.indent + 1, imports := st.imports, has_main := st.has_main } with
        | mk st3 err =>
          rw [hb] at h
          cases err with
          | some e => simp at h
          | none =>
            dsimp only at h
            obtain ⟨m1, hm1⟩ := visitStmts_lines_mono body
              { lines := st.lines ++ [indentPrefix st.indent ++ ("if " ++ cond ++ " then")],
                indent := st.indent + 1, imports := st.imports, has_main := st.has_main }
            rw [hb] at hm1
            simp only at hm1
            obtain ⟨hi3, _⟩ := visitStmts_success_inv body _ st3 hb
            simp only at hi3
            cases ho : visitStmts (o1 :: orest)
              { lines := st3.lines ++ [indentPrefix (st3.indent - 1) ++ ("else")],
                indent := st3.indent - 1 + 1, imports := st3.imports,
                has_main := st3.has_main } with
            | mk st7 err2 =>
              rw [ho] at h
              cases err2 with
              | some e => simp at h
              | none =>
                dsimp only at h
                obtain ⟨m2, hm2⟩ := visitStmts_lines_mono (o1 :: orest)
                  { lines := st3.lines ++ [indentPrefix (st3.indent - 1) ++ ("else")],
                    indent := st3.indent - 1 + 1, imports := st3.imports,
                    has_main := st3.has_main }
                rw [ho] at hm2
                simp only at hm2
                obtain ⟨hi7, _⟩ := visitStmts_success_inv (o1 :: orest) _ st7 ho
                simp only at hi7
                simp only [Prod.mk.injEq, and_true] at h
                refine ⟨cond, m1, m2, ?_⟩
                rw [← h]
                simp [hm2, hm1, hi7, hi3, List.append_assoc]
  · intro name args body st st2 h
    simp only [visitStmt, emit] at h
    cases hb : visitStmts body
      { lines := st.lines ++ [indentPrefix st.indent ++ ("function " ++ name ++ "(" ++
          String.intercalate (", ") args.args ++ ")")],
        indent := st.indent + 1, imports := st.imports, has_main := st.has_main } with
    | mk st3 err =>
      rw [hb] at h
      cases err with
      | some e => simp at h
      | none =>
        obtain ⟨l, hl⟩ := visitStmts_lines_mono body
          { lines := st.lines ++ [indentPrefix st.indent ++ ("function " ++ name ++ "(" ++
              String.intercalate (", ") args.args ++ ")")],
            indent := st.indent + 1, imports := st.imports, has_main := st.has_main }
        rw [hb] at hl
        simp only at hl
        obtain ⟨hi3, _⟩ := visitStmts_success_inv body _ st3 hb
        simp only at hi3
        dsimp only at h
        cases hn : (name == "main") with
        | true =>
          simp only [hn, eq_self_iff_true, if_true, Prod.mk.injEq, and_true] at h
          refine ⟨l, ?_⟩
          rw [← h]
          simp [hl, hi3, List.append_assoc]
        | false =>
          simp only [hn, Bool.false_eq_true, if_false, Prod.mk.injEq, and_true] at h
          refine ⟨l, ?_⟩
          rw [← h]
          simp [hl, hi3, List.append_assoc]

/-- C5, witness: every part of `C5_indent_discipline` at concrete
successful `while`, `if` (both forms) and `function` statements. -/
theorem C5_witness :
    (({ lines := [("while x do"), ("end")], indent := 0, imports := [],
        has_main := false } : St)).indent = initSt.indent ∧
    (∃ cond mid,
      ({ lines := [("while x do"), ("end")], indent := 0, imports := [],
         has_main := false } : St).lines = initSt.lines ++
        [indentPrefix initSt.indent ++ ("while " ++ cond ++ " do")] ++ mid ++
        [indentPrefix initSt.indent ++ ("end")]) ∧
    (∃ cond mid,
      ({ lines := [("if x then"), ("end")], indent := 0, imports := [],
         has_main := false } : St).lines = initSt.lines ++
        [indentPrefix initSt.indent ++ ("if " ++ cond ++ " then")] ++ mid ++
        [indentPrefix initSt.indent ++ ("end")]) ∧
    (∃ cond mid1 mid2,
      ({ lines := [("if x then"), ("else"), ("end")], indent := 0, imports := [],
         has_main := false } : St).lines = initSt.lines ++
        [indentPrefix initSt.indent ++ ("if " ++ cond ++ " then")] ++ mid1 ++
        [indentPrefix initSt.indent ++ ("else")] ++ mid2 ++
        [indentPrefix initSt.indent ++ ("end")]) ∧
    (∃ mid,
      ({ lines := [("function f(a, b)"), ("end")], indent := 0, imports := [],
         has_main := false } : St).lines = initSt.lines ++
        [indentPrefix initSt.indent ++ ("function " ++ "f" ++ "(" ++
          String.intercalate (", ") plainParams.args ++ ")")] ++ mid ++
        [indentPrefix initSt.indent ++ ("end")]) :=
  ⟨C5_indent_discipline.1 (.whileStmt (.name ("x")) [.other ("Pass") []]) initSt
      { lines := [("while x do"), ("end")], indent := 0, imports := [],
        has_main := false } rfl,
    C5_indent_discipline.2.1 (.name ("x")) [.other ("Pass") []] initSt
      { lines := [("while x do"), ("end")], indent := 0, imports := [],
        has_main := false } rfl,
    C5_indent_discipline.2.2.1 (.name ("x")) [.other ("Pass") []] initSt
      { lines := [("if x then"), ("end")], indent := 0, imports := [],
        has_main := false } rfl,
    C5_indent_discipline.2.2.2.1 (.name ("x")) [.other ("Pass") []]
      [.other ("Pass") []] initSt
      { lines := [("if x then"), ("else"), ("end")], indent := 0, imports := [],
        has_main := false } (List.cons_ne_nil _ _) rfl,
    C5_indent_discipline.2.2.2.2 ("f") plainParams [.other ("Pass") []] initSt
      { lines := [("function f(a, b)"), ("end")], indent := 0, imports := [],
        has_main := false } rfl⟩

/-- C6 (confirmed): translating `AttributeAccess(base, member)` rewrites
the member through `snake_to_camel` iff the base is a bare identifier
bound in the import map with recorded origin `"cc_lib"`; in every other
case (unbound identifier, other origin, non-identifier base) the member
is emitted unchanged after the base's own translation. -/
theorem C6_attribute_rewrite :
    ∀ (imps : ImportMap) (value : Expr) (attr : String),
      exprT imps (.attribute value attr) =
        (exprT imps value).map
          (fun b => b ++ "." ++
            (if ccLibBase imps value then snake_to_camel attr else attr)) := by
  intro imps value attr
  cases value
  case name id =>
    cases h : lookupImp imps id with
    | none => simp [exprT, ccLibBase, h, Except.map, Except.bind, bind]
    | some p =>
      obtain ⟨m, orig⟩ := p
      by_cases hm : (m == "cc_lib") = true <;>
        simp [exprT, ccLibBase, h, hm, Except.map, Except.bind, bind]
  case constant v =>
    cases v <;> simp [exprT, ccLibBase, Except.map, Except.bind, bind]
  case unsupported d =>
    simp [exprT, ccLibBase, Except.map, Except.bind, bind]
  case binOp l op r =>
    cases h : exprT imps (Expr.binOp l op r) <;>
      (simp only [exprT] at h ⊢; rw [h]; simp [ccLibBase, Except.map, Except.bind, bind])
  case unaryOp op x =>
    cases h : exprT imps (Expr.unaryOp op x) <;>
      (simp only [exprT] at h ⊢; rw [h]; simp [ccLibBase, Except.map, Except.bind, bind])
  case compare l ops cs =>
    cases h : exprT imps (Expr.compare l ops cs) <;>
      (simp only [exprT] at h ⊢; rw [h]; simp [ccLibBase, Except.map, Except.bind, bind])
  case call f args =>
    cases h : exprT imps (Expr.call f args) <;>
      (simp only [exprT] at h ⊢; rw [h]; simp [ccLibBase, Except.map, Except.bind, bind])
  rename_i b a
  cases h : exprT imps (Expr.attribute b a) <;>
    (simp only [exprT] at h ⊢; rw [h]; simp [ccLibBase, Except.map, Except.bind, bind])

/-- C7 (confirmed): supported binary, unary and comparison expressions
are emitted as the operand translations joined by the mapped operator
symbol inside exactly one added pair of parentheses, with the mapping
add→+, subtract→-, multiply→*, divide→/, negate→prefix -, equal→==,
not-equal→~=, relational operators unchanged; any other binary, unary
or comparison operator and any chained comparison is a translation
failure. -/
theorem C7_operator_mapping :
    (binop .add = .ok ("+") ∧ binop .sub = .ok ("-") ∧ binop .mult = .ok ("*") ∧
      binop .div = .ok ("/")) ∧
    (cmpop .eq = .ok ("==") ∧ cmpop .notEq = .ok ("~=") ∧ cmpop .lt = .ok ("<") ∧
      cmpop .ltE = .ok ("<=") ∧ cmpop .gt = .ok (">") ∧ cmpop .gtE = .ok (">=")) ∧
    (∀ (imps : ImportMap) l op r ls rs os, exprT imps l = .ok ls →
      exprT imps r = .ok rs → binop op = .ok os →
      exprT imps (.binOp l op r) = .ok ("(" ++ ls ++ " " ++ os ++ " " ++ rs ++ ")")) ∧
    (∀ (imps : ImportMap) x s, exprT imps x = .ok s →
      exprT imps (.unaryOp .uSub x) = .ok ("(-" ++ s ++ ")")) ∧
    (∀ (imps : ImportMap) l op r ls rs os, exprT imps l = .ok ls →
      exprT imps r = .ok rs → cmpop op = .ok os →
      exprT imps (.compare l [op] [r]) =
        .ok ("(" ++ ls ++ " " ++ os ++ " " ++ rs ++ ")")) ∧
    (∀ op e, binop op = .error e → ∀ (imps : ImportMap) l r, ∃ e2,
      exprT imps (.binOp l op r) = .error e2) ∧
    (∀ (imps : ImportMap) x op, op ≠ UnaryOpK.uSub → ∃ e,
      exprT imps (.unaryOp op x) = .error e) ∧
    (∀ op e, cmpop op = .error e → ∀ (imps : ImportMap) l r, ∃ e2,
      exprT imps (.compare l [op] [r]) = .error e2) ∧
    (∀ (imps : ImportMap) l ops cs, ops.length ≠ 1 ∨ cs.length ≠ 1 →
      exprT imps (.compare l ops cs) =
        .error ("Only simple comparisons supported")) := by
  refine ⟨⟨rfl, rfl, rfl, rfl⟩, ⟨rfl, rfl, rfl, rfl, rfl, rfl⟩, ?_, ?_, ?_, ?_, ?_, ?_, ?_⟩
  · intro imps l op r ls rs os hl hr hop
    simp only [exprT]
    rw [hl, hr, hop]
    simp [Except.bind, bind]
  · intro imps x s hx
    simp only [exprT]
    rw [hx]
    simp [Except.bind, bind]
  · intro imps l op r ls rs os hl hr hop
    simp only [exprT]
    rw [hl, hr, hop]
    simp [Except.bind, bind]
  · intro op e hop imps l r
    cases hl : exprT imps l with
    | error e1 => exact ⟨e1, by simp only [exprT]; rw [hl]; simp [Except.bind, bind]⟩
    | ok ls =>
      cases hr : exprT imps r with
      | error e2 =>
        exact ⟨e2, by simp only [exprT]; rw [hl, hr]; simp [Except.bind, bind]⟩
      | ok rs =>
        exact ⟨e, by simp only [exprT]; rw [hl, hr, hop]; simp [Except.bind, bind]⟩
  · intro imps x op hop
    cases hx : exprT imps x with
    | error e1 => exact ⟨e1, by simp only [exprT]; rw [hx]; simp [Except.bind, bind]⟩
    | ok s =>
      cases op with
      | uSub => exact absurd rfl hop
      | uAdd =>
        exact ⟨("Only unary minus supported"), by
          simp only [exprT]; rw [hx]; simp [Except.bind, bind]⟩
      | notOp =>
        exact ⟨("Only unary minus supported"), by
          simp only [exprT]; rw [hx]; simp [Except.bind, bind]⟩
  · intro op e hop imps l r
    cases hl : exprT imps l with
    | error e1 => exact ⟨e1, by simp only [exprT]; rw [hl]; simp [Except.bind, bind]⟩
    | ok ls =>
      cases hr : exprT imps r with
      | error e2 =>
        exact ⟨e2, by simp only [exprT]; rw [hl, hr]; simp [Except.bind, bind]⟩
      | ok rs =>
        exact ⟨e, by simp only [exprT]; rw [hl, hr, hop]; simp [Except.bind, bind]⟩
  · intro imps l ops cs hlen
    rcases ops with _ | ⟨o, _ | ⟨o2, ot⟩⟩ <;> rcases cs with _ | ⟨c, _ | ⟨c2, ct⟩⟩ <;>
      simp_all [exprT]

/-- C7, witness: the general parts of `C7_operator_mapping` at concrete
expressions `a + b`, `-x`, `a == b`, the unsupported single-operator
comparison `a is b`, and the chained `a < b < c`. -/
theorem C7_witness :
    exprT [] (.binOp (.name ("a")) .add (.name ("b"))) = .ok ("(a + b)") ∧
    exprT [] (.unaryOp .uSub (.name ("x"))) = .ok ("(-x)") ∧
    exprT [] (.compare (.name ("a")) [.eq] [.name ("b")]) = .ok ("(a == b)") ∧
    (∃ e2, exprT [] (.compare (.name ("a")) [.isOp] [.name ("b")]) = .error e2) ∧
    exprT [] (.compare (.name ("a")) [.lt, .lt] [.name ("b"), .name ("c")]) =
      .error ("Only simple comparisons supported") :=
  ⟨C7_operator_mapping.2.2.1 [] (.name ("a")) .add (.name ("b")) ("a") ("b") ("+")
      rfl rfl rfl,
    C7_operator_mapping.2.2.2.1 [] (.name ("x")) ("x") rfl,
    C7_operator_mapping.2.2.2.2.1 [] (.name ("a")) .eq (.name ("b")) ("a") ("b") ("==")
      rfl rfl rfl,
    C7_operator_mapping.2.2.2.2.2.2.2.1 .isOp ("Unsupported cmpop: Is") rfl []
      (.name ("a")) (.name ("b")),
    C7_operator_mapping.2.2.2.2.2.2.2.2 [] (.name ("a")) [.lt, .lt]
      [.name ("b"), .name ("c")] (by decide)⟩

/-- C8, counterexample to the claim as stated: on `"do_thingX"` the code
lower-cases the tail of the second segment (`str.capitalize` semantics),
yielding `"doThingx"`, not the claimed `"doThingX"`. -/
theorem C8_counterexample :
    snake_to_camel ("do_thingX") = "doThingx" ∧
    snake_to_camel_spec ("do_thingX") = "doThingX" ∧
    snake_to_camel ("do_thingX") ≠ snake_to_camel_spec ("do_thingX") := by
  refine ⟨rfl, rfl, ?_⟩
  decide

/-- C8 (amended): the converter keeps the first segment and
`str.capitalize`s each later segment (first character upper-cased, rest
LOWER-cased); the empty input returns itself; it is the identity — hence
idempotent — on inputs without the delimiter; and it agrees with the
claimed rest-unchanged description on inputs whose later segments
contain no character changed by lower-casing. -/
theorem C8_naming_converter :
    (snake_to_camel ("") = "") ∧
    (∀ name : String, '_' ∉ name.data → snake_to_camel name = name) ∧
    (∀ name : String, '_' ∉ name.data →
      snake_to_camel (snake_to_camel name) = snake_to_camel name) ∧
    (∀ name : String,
      (∀ seg ∈ (splitOnChar '_' name.data).tail, ∀ ch ∈ seg, ch.toLower = ch) →
      snake_to_camel name = snake_to_camel_spec name) := by
  have part2 : ∀ name : String, '_' ∉ name.data → snake_to_camel name = name := by
    intro name h
    simp only [snake_to_camel, splitOnChar_of_not_mem '_' name.data h]
    simp
  refine ⟨rfl, part2, ?_, ?_⟩
  · intro name h
    rw [part2 name h, part2 name h]
  · intro name h
    cases hp : splitOnChar '_' name.data with
    | nil => simp [snake_to_camel, snake_to_camel_spec, hp]
    | cons p ps =>
      rw [hp] at h
      simp only [List.tail_cons] at h
      have : ps.map pyCapitalize = ps.map upperFirst :=
        List.map_congr_left (fun seg hs => pyCapitalize_eq_upperFirst seg (h seg hs))
      simp [snake_to_camel, snake_to_camel_spec, hp, this]

/-- C8, witness: `C8_naming_converter` at `"foo"` (no delimiter) and at
the all-lowercase `"get_names"`. -/
theorem C8_witness :
    snake_to_camel ("foo") = "foo" ∧
    snake_to_camel ("get_names") = snake_to_camel_spec ("get_names") :=
  ⟨C8_naming_converter.2.1 ("foo") (by decide),
    C8_naming_converter.2.2.2 ("get_names") (by decide)⟩

/-- C9 (confirmed): an assignment with exactly one target emits the
single line `local <target> = <value>`; more than one target (or zero)
raises the single-assignment error with the state unchanged — no output
is produced — and a module containing such an assignment transpiles to
that error with no output text. -/
theorem C9_single_assignment :
    (∀ (st : St) (t v : Expr) (ts vs : String),
      exprT st.imports t = .ok ts → exprT st.imports v = .ok vs →
      visitStmt (.assign [t] v) st =
        (emit st ("local " ++ ts ++ " = " ++ vs), Option.none)) ∧
    (∀ (st : St) (targets : List Expr) (v : Expr), targets.length ≠ 1 →
      visitStmt (.assign targets v) st =
        (st, Option.some ("Only single assignment supported"))) ∧
    (∀ (targets : List Expr) (v : Expr), targets.length ≠ 1 →
      transpile [.assign targets v] =
        .error ("Only single assignment supported")) := by
  have h2 : ∀ (st : St) (targets : List Expr) (v : Expr), targets.length ≠ 1 →
      visitStmt (.assign targets v) st =
        (st, Option.some ("Only single assignment supported")) := by
    intro st targets v hlen
    rcases targets with _ | ⟨t, _ | ⟨t2, ts⟩⟩ <;> simp_all [visitStmt]
  refine ⟨?_, h2, ?_⟩
  · intro st t v ts vs ht hv
    simp only [visitStmt]
    rw [ht, hv]
  · intro targets v hlen
    have := h2 initSt targets v hlen
    simp [transpile, visitModule, visitStmts, this]

/-- C9, witness: `C9_single_assignment` at `x = 1` and at the two-target
`a = b = 1`. -/
theorem C9_witness :
    visitStmt (.assign [.name ("x")] (.constant (.int 1))) initSt =
      (emit initSt ("local x = 1"), Option.none) ∧
    visitStmt (.assign [.name ("a"), .name ("b")] (.constant (.int 1))) initSt =
      (initSt, Option.some ("Only single assignment supported")) :=
  ⟨C9_single_assignment.1 initSt (.name ("x")) (.constant (.int 1)) ("x") ("1")
      rfl rfl,
    C9_single_assignment.2.1 initSt [.name ("a"), .name ("b")] (.constant (.int 1))
      (by decide)⟩

/-- C10 (confirmed): boolean and `None` constants do not make the
expression translator fail — they are emitted verbatim as Python's
`repr` text `True`, `False`, `None`. -/
theorem C10_constant_fallback :
    (∀ (imps : ImportMap) (b : Bool), exprT imps (.constant (.bool b)) =
      .ok (if b then ("True") else ("False"))) ∧
    (∀ (imps : ImportMap), exprT imps (.constant Const.none) = .ok ("None")) := by
  refine ⟨?_, ?_⟩
  · intro imps b
    cases b <;> rfl
  · intro imps
    rfl

end Transpiler
